import Mathlib

/-
  Verification development for the CR-bot repository (TypeScript).

  Shallow embedding: JavaScript strings are modelled as `List Char`
  (abbreviated `Chars`), numbers as `Nat`/`Int` (the values produced by the
  parser are small integers, far from any Number-precision boundary),
  `undefined`/absent fields as `Option`, and a thrown TypeError from a
  null/undefined property access as an explicit error flag.  Effectful
  operations (chat replies, reactions, network requests, sleeps, abort
  signals) are modelled as an emitted list of events.
-/

abbrev Chars := List Char

/-- Char list of a Lean string literal (JS string literals). -/
def chars (s : String) : Chars := s.data

/-- The JS whitespace class used by `\s`, `String.prototype.trim` and the
    token splitting in `parseCmd` (ASCII part plus NBSP; the exotic Unicode
    space code points never occur in the modelled inputs). -/
def isJsWs (c : Char) : Bool :=
  c = ' ' || c = '\t' || c = '\n' || c = '\r' || c = '\x0b' || c = '\x0c' || c = '\u00A0'

def isAsciiDigit (c : Char) : Bool := '0' ≤ c && c ≤ '9'

def isAsciiAlpha (c : Char) : Bool := ('a' ≤ c && c ≤ 'z') || ('A' ≤ c && c ≤ 'Z')

def isAlnumChar (c : Char) : Bool := isAsciiAlpha c || isAsciiDigit c

/-- Character class `[a-zA-Z0-9_-]` of the username regex. -/
def isUserChar (c : Char) : Bool := isAlnumChar c || c = '_' || c = '-'

/-- `c.toLowerCase()` for one character (ASCII case mapping; all comparisons
    in the source are against ASCII keywords). -/
def jsCharToLower (c : Char) : Char :=
  if 'A' ≤ c && c ≤ 'Z' then Char.ofNat (c.toNat + 32) else c

/-- `s.toLowerCase()`. -/
def jsToLower (s : Chars) : Chars := s.map jsCharToLower

/-- Decimal value of a digit string (the value `parseInt` returns on a
    string matching `/^\d+$/`). -/
def decNat (s : Chars) : Nat := s.foldl (fun a c => 10 * a + (c.toNat - 48)) 0

/-- `parseInt(s, 10)`: skip leading whitespace, optional sign, read leading
    digits; `none` models the `NaN` result when no digit is found.
    `parseInt` never throws. -/
def jsParseInt (s : Chars) : Option Int :=
  let s1 := s.dropWhile isJsWs
  let signed : Bool × Chars :=
    match s1 with
    | '-' :: r => (true, r)
    | '+' :: r => (false, r)
    | _ => (false, s1)
  let ds := signed.2.takeWhile isAsciiDigit
  if ds.isEmpty then none
  else some (if signed.1 then -(decNat ds : Int) else (decNat ds : Int))

/-- `parseInt(x, 10)` where `x` may be `undefined` (e.g. `parts[1]` of a
    one-token message): `parseInt(undefined)` is `NaN`. -/
def jsParseIntOpt (s : Option Chars) : Option Int :=
  match s with
  | none => none
  | some t => jsParseInt t

/-- `String.prototype.trim`. -/
def jsTrim (s : Chars) : Chars :=
  ((s.dropWhile isJsWs).reverse.dropWhile isJsWs).reverse

/-- Split on single whitespace characters, keeping empty chunks (helper for
    the `/\s+/` split: consecutive separators produce empty chunks which are
    collapsed by filtering below). Never returns `[]`. -/
def splitWsAux : Chars → List Chars
  | [] => [[]]
  | c :: rest =>
    if isJsWs c then [] :: splitWsAux rest
    else
      match splitWsAux rest with
      | w :: ws => (c :: w) :: ws
      | [] => [[c]]

/-- `s.split(/\s+/)` for a trimmed string `s` (the only way it is called in
    `parseCmd`): the empty string yields `[""]`, otherwise the whitespace
    separated words. -/
def jsSplitTrimmedWs (s : Chars) : List Chars :=
  if s.isEmpty then [[]]
  else (splitWsAux s).filter (fun w => !w.isEmpty)

/-- Replace of the first match of `/@\*\*.+?\*\*/` by the empty string:
    leftmost `@**`, then the shortest non-empty newline-free body followed
    by `**`, is removed. `findMentionClose l` returns the lazy body length
    when `l` consists of a body of at least one non-newline character
    followed by `**`.  When no close exists for a given `@**`, the regex
    engine advances the start position; since no match can start at a `*`,
    the scan equivalently resumes after the two stars. -/
def findMentionClose : Chars → Option Nat
  | [] => none
  | c :: rest =>
    if c = '\n' || c = '\r' then none
    else if (chars "**").isPrefixOf rest then some 1
    else (findMentionClose rest).map (· + 1)

def stripMention : Chars → Chars
  | [] => []
  | '@' :: '*' :: '*' :: rest =>
    (match findMentionClose rest with
     | some k => rest.drop (k + 2)
     | none => '@' :: '*' :: '*' :: stripMention rest)
  | c :: rest => c :: stripMention rest

/-- Replace of `/^@cr/` by the empty string. -/
def stripCrAlias (s : Chars) : Chars :=
  if (chars "@cr").isPrefixOf s then s.drop 3 else s

/-- Days from the civil epoch 1970-01-01 to year-month-day (proleptic
    Gregorian; the standard days-from-civil computation used by
    `Date.parse`/`Date.prototype.toISOString`). -/
def daysFromCivil (y : Int) (m : Nat) (d : Nat) : Int :=
  let y' : Int := if m ≤ 2 then y - 1 else y
  let era : Int := (if 0 ≤ y' then y' else y' - 399) / 400
  let yoe : Int := y' - era * 400
  let mp : Int := ((m : Int) + 9) % 12
  let doy : Int := (153 * mp + 2) / 5 + (d : Int) - 1
  let doe : Int := yoe * 365 + yoe / 4 - yoe / 100 + doy
  era * 146097 + doe - 719468

/-- Civil date of a day count (inverse of `daysFromCivil`). -/
def civilFromDays (z : Int) : Int × Nat × Nat :=
  let z' := z + 719468
  let era : Int := (if 0 ≤ z' then z' else z' - 146096) / 146097
  let doe : Int := z' - era * 146097
  let yoe : Int := (doe - doe / 1460 + doe / 36524 - doe / 146096) / 365
  let y : Int := yoe + era * 400
  let doy : Int := doe - (365 * yoe + yoe / 4 - yoe / 100)
  let mp : Int := (5 * doy + 2) / 153
  let d : Int := doy - (153 * mp + 2) / 5 + 1
  let m : Int := if mp < 10 then mp + 3 else mp - 9
  (if m ≤ 2 then y + 1 else y, m.toNat, d.toNat)

/-- `Date.parse` of a bare 4-digit year string `"YYYY"` (what the source
    feeds it): epoch milliseconds of YYYY-01-01T00:00:00Z. -/
def yearStartMs (y : Nat) : Int := daysFromCivil (y : Int) 1 1 * 86400000

/-- `Date.parse('2010-01-01')` in epoch milliseconds. -/
def date2010Ms : Int := daysFromCivil 2010 1 1 * 86400000

/-- `Date.parse('2100-01-01')` in epoch milliseconds. -/
def date2100Ms : Int := daysFromCivil 2100 1 1 * 86400000

/-- Left-pad a decimal rendering with zeros. -/
def padZero (width : Nat) (n : Nat) : Chars :=
  let ds := (Nat.repr n).data
  List.replicate (width - ds.length) '0' ++ ds

/-- `formatTimestamp` (utils.ts): `new Date(t).toISOString().split('T')[0]`,
    the `YYYY-MM-DD` date of epoch-milliseconds `t` (UTC; expanded-year
    signs for dates outside years 0..9999). -/
def formatTimestamp (t : Int) : Chars :=
  let ymd := civilFromDays (Int.fdiv t 86400000)
  let yearPart : Chars :=
    if 0 ≤ ymd.1 && ymd.1 ≤ 9999 then padZero 4 ymd.1.toNat
    else if ymd.1 < 0 then '-' :: padZero 6 (-ymd.1).toNat
    else '+' :: padZero 6 ymd.1.toNat
  yearPart ++ '-' :: padZero 2 ymd.2.1 ++ '-' :: padZero 2 ymd.2.2

/-- Match of `/^(\d{4})-(\d{1,2})-(\d{1,2})$/`, returning the three capture
    groups. -/
def isoDateMatch (s : Chars) : Option (Chars × Chars × Chars) :=
  let ys := s.takeWhile isAsciiDigit
  if ys.length = 4 then
    match s.drop 4 with
    | '-' :: r1 =>
      let ms := r1.takeWhile isAsciiDigit
      if 1 ≤ ms.length && ms.length ≤ 2 then
        match r1.drop ms.length with
        | '-' :: r2 =>
          let ds := r2.takeWhile isAsciiDigit
          if (1 ≤ ds.length && ds.length ≤ 2) && r2.drop ds.length = [] then
            some (ys, ms, ds)
          else none
        | _ => none
      else none
    | _ => none
  else none

/-- Match of `/^(\d+)d(ays?)?$/`, returning the digit group. -/
def relDaysMatch (s : Chars) : Option Chars :=
  let ds := s.takeWhile isAsciiDigit
  if ds.isEmpty then none
  else
    match s.drop ds.length with
    | ['d'] => some ds
    | ['d', 'a', 'y'] => some ds
    | ['d', 'a', 'y', 's'] => some ds
    | _ => none

/-- `parseTime` (utils.ts).  `now` is `+new Date()` (current epoch ms).
    Note the source's `Date.parse(match[1])` only receives the year capture
    group, so the month and day of an ISO date are ignored. -/
def parseTime (now : Int) (s : Chars) : Option Int :=
  if !(s.takeWhile isAsciiDigit).isEmpty && (s.dropWhile isAsciiDigit).isEmpty then
    some (decNat s : Int)
  else
    match isoDateMatch s with
    | some (ys, _, _) => some (yearStartMs (decNat ys))
    | none =>
      match relDaysMatch s with
      | some ds => some (now - (decNat ds : Int) * (24 * 60 * 60 * 1000))
      | none => none

/-- `determinePerfType` (utils.ts).  Modelled from the spec: the latest
    revision's utils.ts is not part of the provided sources; the spec says it
    maps the total seconds per game derived from the time control to the
    perf-type bands, with fixed thresholds it leaves as an open question.  We
    use the lichess bands (total = minutes*60 + increment*40).  No claim in
    this development depends on the exact thresholds. -/
def determinePerfType (minutes : Nat) (inc : Nat) : Chars :=
  let total := minutes * 60 + inc * 40
  if total < 180 then chars "bullet"
  else if total < 480 then chars "blitz"
  else if total < 1500 then chars "rapid"
  else if total < 21600 then chars "classical"
  else chars "correspondence"

/-- The abort command payload: `number | 'all'`, where the number may be the
    `NaN` produced by `parseInt` on a non-numeric token (modelled `none`). -/
inductive AbortTarget
  | all
  | index (n : Option Int)
deriving DecidableEq, Repr

structure IdsCommand where
  user : Chars
  ids : List Chars
deriving DecidableEq, Repr

structure RecentCommand where
  user : Chars
  perfType : Chars
  time_control : Option (Nat × Nat)
  count : Nat
  with_casual : Bool
  before_epoch : Option Int
  after_epoch : Option Int
  max_advantage : Option Nat
  min_moves : Option Nat
  max_moves : Option Nat
deriving DecidableEq, Repr

structure TournamentCommand where
  tournament_type : Chars
  id : Chars
  user : Chars
  max_advantage : Option Nat
  min_moves : Option Nat
  max_moves : Option Nat
deriving DecidableEq, Repr

inductive ValidCommand
  | ids (c : IdsCommand)
  | recent (c : RecentCommand)
  | tournament (c : TournamentCommand)
deriving DecidableEq, Repr

inductive Command
  | help
  | status
  | abort (indexOrAll : AbortTarget)
  | invalid (reason : Chars)
  | ids (c : IdsCommand)
  | recent (c : RecentCommand)
  | tournament (c : TournamentCommand)
deriving DecidableEq, Repr

/-- Embed a `ValidCommand` into `Command`. -/
def ValidCommand.toCommand : ValidCommand → Command
  | .ids c => .ids c
  | .recent c => .recent c
  | .tournament c => .tournament c

/-- `/^\d+$/`. -/
def isDigitsTok (s : Chars) : Bool := !s.isEmpty && s.all isAsciiDigit

/-- Match of `/^(\d+)\+(\d+)$/` (a `minutes+increment` time control). -/
def tcMatch (s : Chars) : Option (Nat × Nat) :=
  let ds1 := s.takeWhile isAsciiDigit
  if ds1.isEmpty then none
  else
    match s.drop ds1.length with
    | '+' :: r =>
      if !r.isEmpty && r.all isAsciiDigit then some (decNat ds1, decNat r) else none
    | _ => none

/-- Match of `/^advantage<(\d+)$/`. -/
def advMatch (s : Chars) : Option Nat :=
  if (chars "advantage<").isPrefixOf s then
    let r := s.drop 10
    if !r.isEmpty && r.all isAsciiDigit then some (decNat r) else none
  else none

/-- Match of `/^moves(<|>)(\d+)$/`. -/
def movesMatch (s : Chars) : Option (Char × Nat) :=
  if (chars "moves").isPrefixOf s then
    match s.drop 5 with
    | op :: r =>
      if (op = '<' || op = '>') && (!r.isEmpty && r.all isAsciiDigit) then
        some (op, decNat r)
      else none
    | [] => none
  else none

/-- Match of `/^time(<|>)(.+)$/` (`.` does not match line terminators). -/
def timeOpMatch (s : Chars) : Option (Char × Chars) :=
  if (chars "time").isPrefixOf s then
    match s.drop 4 with
    | op :: r =>
      if (op = '<' || op = '>') && (!r.isEmpty && r.all fun c => c ≠ '\n' && c ≠ '\r') then
        some (op, r)
      else none
    | [] => none
  else none

/-- The perf-type keyword list of the latest parser revision. -/
def perfKeywords : List Chars :=
  [chars "bullet", chars "blitz", chars "rapid", chars "classical", chars "chess960"]

/-- The mutable `Partial<RecentCommand>` accumulator of recent-mode parsing:
    every optional field starts absent. -/
structure RecentAcc where
  perfType : Option Chars := none
  with_casual : Bool := false
  count : Option Nat := none
  time_control : Option (Nat × Nat) := none
  before_epoch : Option Int := none
  after_epoch : Option Int := none
  max_advantage : Option Nat := none
  min_moves : Option Nat := none
  max_moves : Option Nat := none
deriving DecidableEq, Repr

/-- The recent-mode token loop of `parseCmd` (parser.ts, latest revision).
    The arguments have already been lower-cased (`args.map(a => a.toLowerCase())`).
    An `.error` is the reason of the `Invalid` result returned from inside
    the loop. -/
def recentLoop (now : Int) : List Chars → RecentAcc → Except Chars RecentAcc
  | [], acc => .ok acc
  | arg :: rest, acc =>
    if arg = chars "recent" then recentLoop now rest acc
    else if perfKeywords.contains arg then
      match acc.perfType with
      | none => recentLoop now rest { acc with perfType := some arg }
      | some p =>
        if p ≠ arg then
          .error (chars "Duplicate perf types `" ++ p ++ chars "` and `" ++ arg ++ chars "`")
        else recentLoop now rest acc
    else if arg = chars "+casual" then recentLoop now rest { acc with with_casual := true }
    else if isDigitsTok arg then recentLoop now rest { acc with count := some (decNat arg) }
    else
      match tcMatch arg with
      | some tc => recentLoop now rest { acc with time_control := some tc }
      | none =>
        match advMatch arg with
        | some n => recentLoop now rest { acc with max_advantage := some n }
        | none =>
          match movesMatch arg with
          | some opn =>
            if opn.1 = '<' then recentLoop now rest { acc with max_moves := some opn.2 }
            else recentLoop now rest { acc with min_moves := some opn.2 }
          | none =>
            match timeOpMatch arg with
            | some opt =>
              match parseTime now opt.2 with
              | none => .error (chars "Invalid date/time format: " ++ opt.2)
              | some t =>
                if t = 0 then .error (chars "Invalid date/time format: " ++ opt.2)
                else if t > date2100Ms then
                  .error (chars "Date is too far in the future (" ++ formatTimestamp t ++ chars ")")
                else if t < date2010Ms then
                  .error (chars "Date is too far in the past (" ++ formatTimestamp t ++ chars ")")
                else if opt.1 = '<' then recentLoop now rest { acc with before_epoch := some t }
                else recentLoop now rest { acc with after_epoch := some t }
            | none => .error (chars "Invalid parameter: `" ++ arg ++ chars "`")

/-- Recent-mode parsing: the token loop followed by the final validation of
    the accumulated record. -/
def parseRecent (now : Int) (user : Chars) (args : List Chars) : Command :=
  match recentLoop now (args.map jsToLower) {} with
  | .error r => .invalid r
  | .ok acc =>
    let perfResolved : Option Chars :=
      match acc.perfType, acc.time_control with
      | some p, _ => some p
      | none, some tc => some (determinePerfType tc.1 tc.2)
      | none, none => none
    match perfResolved with
    | none => .invalid (chars "No perf type specified")
    | some p =>
      match acc.count with
      | none => .invalid (chars "No game count specified")
      | some n =>
        if n > 100 then .invalid (chars "Max count has to be <100")
        else
          .recent ⟨user, p, acc.time_control, n, acc.with_casual, acc.before_epoch,
                   acc.after_epoch, acc.max_advantage, acc.min_moves, acc.max_moves⟩

/-- Match of `/^https:\/\/lichess.org\/(tournament|swiss)\/([a-zA-Z0-9]{8})$/`
    (the `.` of `lichess.org` is unescaped in the source, so it matches any
    character there). -/
def tournUrlMatch (s : Chars) : Option (Chars × Chars) :=
  if (chars "https://lichess").isPrefixOf s then
    match s.drop 15 with
    | _ :: r1 =>
      if (chars "org/").isPrefixOf r1 then
        let r2 := r1.drop 4
        if (chars "tournament/").isPrefixOf r2 then
          let idc := r2.drop 11
          if idc.length = 8 && idc.all isAlnumChar then some (chars "tournament", idc) else none
        else if (chars "swiss/").isPrefixOf r2 then
          let idc := r2.drop 6
          if idc.length = 8 && idc.all isAlnumChar then some (chars "swiss", idc) else none
        else none
      else none
    | [] => none
  else none

/-- The `Partial<TournamentCommand>` accumulator.  `id` and `tournament_type`
    are only ever set together (from the URL match), so they are carried as
    one optional pair. -/
structure TournAcc where
  url : Option (Chars × Chars) := none
  max_advantage : Option Nat := none
  min_moves : Option Nat := none
  max_moves : Option Nat := none
deriving DecidableEq, Repr

/-- The tournament-mode token loop: iterates the original (non-lowercased)
    arguments, lower-casing per token for the keyword and filter matches but
    matching the URL case-sensitively. -/
def tournLoop : List Chars → TournAcc → Except Chars TournAcc
  | [], acc => .ok acc
  | arg :: rest, acc =>
    let argLower := jsToLower arg
    if argLower = chars "tournament" || argLower = chars "swiss" then tournLoop rest acc
    else
      match tournUrlMatch arg with
      | some ti => tournLoop rest { acc with url := some ti }
      | none =>
        match advMatch argLower with
        | some n => tournLoop rest { acc with max_advantage := some n }
        | none =>
          match movesMatch argLower with
          | some opn =>
            if opn.1 = '<' then tournLoop rest { acc with max_moves := some opn.2 }
            else tournLoop rest { acc with min_moves := some opn.2 }
          | none => .error (chars "Invalid parameter: `" ++ arg ++ chars "`")

def parseTournament (user : Chars) (args : List Chars) : Command :=
  match tournLoop args {} with
  | .error r => .invalid r
  | .ok acc =>
    match acc.url with
    | none => .invalid (chars "Missing tournament URL")
    | some ti => .tournament ⟨ti.1, ti.2, user, acc.max_advantage, acc.min_moves, acc.max_moves⟩

/-- Replace of the first match of `/(?:https?:\/\/)?lichess\.org\//` by the
    empty string (leftmost match; the optional scheme group is greedy). -/
def stripLichessUrl : Chars → Chars
  | [] => []
  | c :: rest =>
    if (chars "https://lichess.org/").isPrefixOf (c :: rest) then (c :: rest).drop 20
    else if (chars "http://lichess.org/").isPrefixOf (c :: rest) then (c :: rest).drop 19
    else if (chars "lichess.org/").isPrefixOf (c :: rest) then (c :: rest).drop 12
    else c :: stripLichessUrl rest

/-- Replace of the first occurrence of the literal `'/black'` by the empty
    string. -/
def stripBlackOnce : Chars → Chars
  | [] => []
  | c :: rest =>
    if (chars "/black").isPrefixOf (c :: rest) then (c :: rest).drop 6
    else c :: stripBlackOnce rest

/-- The per-token game-id normalization of ids-mode. -/
def normalizeGameId (s : Chars) : Chars :=
  (jsTrim (stripBlackOnce (stripLichessUrl s))).take 8

/-- `/^[a-zA-Z0-9]{8}$/`. -/
def gameIdOk (s : Chars) : Bool := s.length = 8 && s.all isAlnumChar

/-- First normalized id failing the 8-character alphanumeric test, if any
    (the source loop returns on the first bad id). -/
def findBadId : List Chars → Option Chars
  | [] => none
  | id :: rest => if !gameIdOk id then some id else findBadId rest

def parseIds (user : Chars) (args : List Chars) : Command :=
  let gameIds := args.map normalizeGameId
  match findBadId gameIds with
  | some id => .invalid (chars "Bad game ID: `" ++ id ++ chars "`")
  | none =>
    if gameIds.length < 1 || gameIds.length > 100 then
      .invalid (chars "Too few or many game IDs. Provide between 1 and 100 game IDs.")
    else .ids ⟨user, gameIds⟩

/-- The body of `parseCmd` (parser.ts, latest revision) after tokenization.
    Notes on fidelity: `parts.length === 0` is kept as the `[]` case although
    the JS split can never produce an empty array (see `jsSplitTrimmedWs`);
    the `try`/`catch` around `parseInt` in the abort branch is dead code
    because `parseInt` never throws, so no `Invalid('Invalid index')` result
    is reachable; the `!user` test is the emptiness test of the first token;
    the username regex `/^[a-zA-Z0-9_-]+$/` on a non-empty token is the
    `all isUserChar` test. -/
def parseParts (now : Int) (parts : List Chars) : Command :=
  match parts with
  | [] => .help
  | user :: args =>
    if user = chars "help" then .help
    else if user = chars "status" then .status
    else if user = chars "abort" then
      if args.head? = some (chars "all") then .abort .all
      else .abort (.index (jsParseIntOpt args.head?))
    else if user.isEmpty then .invalid (chars "Missing username.")
    else if !(user.all isUserChar) then .invalid (chars "Bad username")
    else if args.isEmpty then .invalid (chars "Missing parameters")
    else if args.any (fun a => jsToLower a = chars "recent") then parseRecent now user args
    else if args.any (fun a => jsToLower a = chars "tournament" || jsToLower a = chars "swiss") then
      parseTournament user args
    else parseIds user args

/-- `parseCmd` on a message content: strip the first `@**...**` mention,
    strip a leading `@cr`, trim, split on whitespace (`parts`), then parse.
    `now` is the current epoch-milliseconds clock read by `parseTime`.
    The `.map(p => p.trim())` of the source is the identity on tokens
    produced by a whitespace split and is omitted. -/
def parseCmdContent (now : Int) (content : Chars) : Command :=
  parseParts now (jsSplitTrimmedWs (jsTrim (stripCrAlias (stripMention content))))

def natChars (n : Nat) : Chars := (toString n).data

def intChars (i : Int) : Chars := (toString i).data

/-- `arr.join(' ')`. -/
def joinSpace : List Chars → Chars
  | [] => []
  | [x] => x
  | x :: xs => x ++ ' ' :: joinSpace xs

/-- The repeated `if (cmd.field) s += tok + value` pattern of `formatCmd`:
    the guard is a JS truthiness test, so an absent field and a zero value
    are both skipped. -/
def appendIfNat (s : Chars) (field : Option Nat) (tok : Chars) : Chars :=
  match field with
  | some n => if n ≠ 0 then s ++ tok ++ natChars n else s
  | none => s

def appendIfInt (s : Chars) (field : Option Int) (tok : Chars) : Chars :=
  match field with
  | some t => if t ≠ 0 then s ++ tok ++ intChars t else s
  | none => s

/-- `formatCmd` (parser.ts, latest revision). -/
def formatCmd : ValidCommand → Chars
  | .ids c => chars "/" ++ c.user ++ chars " ids " ++ joinSpace c.ids
  | .recent c =>
    let s0 := chars "/" ++ c.user ++ chars " recent " ++ natChars c.count ++ chars " " ++ c.perfType
    let s1 := if c.with_casual then s0 ++ chars "+casual" else s0
    let s2 := appendIfInt s1 c.after_epoch (chars " time>")
    let s3 := appendIfInt s2 c.before_epoch (chars " time<")
    let s4 := appendIfNat s3 c.max_advantage (chars " advantage<")
    let s5 := appendIfNat s4 c.max_moves (chars " moves<")
    appendIfNat s5 c.min_moves (chars " moves>")
  | .tournament c =>
    let s0 := chars "/" ++ c.user ++ chars " tournament " ++ c.tournament_type ++ chars " " ++ c.id
    let s1 := appendIfNat s0 c.max_advantage (chars " advantage<")
    let s2 := appendIfNat s1 c.max_moves (chars " moves<")
    appendIfNat s2 c.min_moves (chars " moves>")

/-- One effect of the message handler: a chat reply, a reaction add/remove,
    an HTTP request, a `sleep`, or triggering an `AbortController`. -/
inductive Effect
  | reply (msg : Nat) (text : Chars)
  | react (msg : Nat) (emoji : Chars)
  | unreact (msg : Nat) (emoji : Chars)
  | request
  | sleepMs (ms : Nat)
  | abortSignal
deriving DecidableEq, Repr

/-- A queued CR job (handler.ts `QueuedCR`): the originating message and the
    validated command, plus the pgn/report paths. -/
structure QueuedCR where
  msg : Nat
  cmd : ValidCommand
  pgnPath : Chars
  reportPath : Chars
deriving DecidableEq, Repr

/-- The mutable fields of `MsgHandler` touched by the scheduler operations.
    The running job's `AbortController` is modelled by the `abortSignal`
    effect. -/
structure HandlerState where
  crQueue : List QueuedCR
  crIsRunning : Bool
  currentCr : Option QueuedCR
deriving DecidableEq, Repr

/-- Result of a handler operation: the effects emitted so far, the state
    after all field mutations that happened before returning or throwing,
    and whether a TypeError was thrown (a property access on
    `undefined`/`null`). -/
structure AbortOutcome where
  effects : List Effect
  state : HandlerState
  threw : Bool
deriving DecidableEq, Repr

/-- The trailing `if (indexOrAll === 0 || indexOrAll === 'all')` block of
    `handleAbort`: `this.currentCr.abortCtrl.abort()` throws a TypeError
    when `currentCr` is `null`; otherwise the abort signal is triggered,
    the handler sleeps 5000 ms and reports depending on `crIsRunning`. -/
def abortCurrent (st : HandlerState) (msg : Nat) (effs : List Effect) : AbortOutcome :=
  match st.currentCr with
  | none => ⟨effs, st, true⟩
  | some _ =>
    let effs := effs ++ [Effect.abortSignal, Effect.sleepMs 5000]
    if st.crIsRunning then
      ⟨effs ++ [Effect.reply msg (chars "Running CR didn\x27t abort after 5 seconds")],
       { st with crIsRunning := false }, false⟩
    else ⟨effs ++ [Effect.react msg (chars "check")], st, false⟩

/-- `handleAbort` (handler.ts, latest revision).  For `'all'` every queued
    job is notified and the queue is cleared; for an index `k > 0` the job
    at position `k` of the queue (not `k - 1`) is notified — a TypeError is
    thrown if `k` is out of bounds — and `splice(k - 1)` removes every
    pending job from position `k - 1` to the end; for index 0 or `'all'`
    the current job's abort handle is triggered.  A `none` index is the
    `NaN` produced by `parseInt`, for which every comparison is false. -/
def handleAbort (st : HandlerState) (msg : Nat) (t : AbortTarget) : AbortOutcome :=
  match t with
  | .all =>
    let effs := (st.crQueue.map fun cr =>
      [Effect.react cr.msg (chars "prohibited"), Effect.unreact cr.msg (chars "time_ticking")]).flatten
    let st := { st with crQueue := [] }
    abortCurrent st msg effs
  | .index none => ⟨[], st, false⟩
  | .index (some k) =>
    if 0 < k then
      match st.crQueue.get? k.toNat with
      | none => ⟨[], st, true⟩
      | some cr =>
        ⟨[Effect.react cr.msg (chars "prohibited"), Effect.unreact cr.msg (chars "time_ticking")],
         { st with crQueue := st.crQueue.take (k.toNat - 1) }, false⟩
    else if k = 0 then abortCurrent st msg []
    else ⟨[], st, false⟩

/-- The top-level `handle` specialised to an abort command: the `catch`
    around the dispatch applies the generic failure reaction (`cross_mark`
    react plus `time_ticking` unreact) instead of replying. -/
def handleMsgAbort (st : HandlerState) (msg : Nat) (t : AbortTarget) :
    List Effect × HandlerState :=
  let o := handleAbort st msg t
  if o.threw then
    (o.effects ++ [Effect.react msg (chars "cross_mark"), Effect.unreact msg (chars "time_ticking")],
     o.state)
  else (o.effects, o.state)

/-- `buf.split(/\r?\n/)` followed by `buf = parts.pop()`: the complete lines
    and the trailing partial buffer. -/
def splitLinesRN : Chars → List Chars × Chars
  | [] => ([], [])
  | '\r' :: '\n' :: rest =>
    let p := splitLinesRN rest
    ([] :: p.1, p.2)
  | '\n' :: rest =>
    let p := splitLinesRN rest
    ([] :: p.1, p.2)
  | c :: rest =>
    match splitLinesRN rest with
    | ([], b) => ([], c :: b)
    | (l :: ls, b) => ((c :: l) :: ls, b)

/-- `count >= max` where `max` may be `undefined`: any comparison with
    `undefined` is false. -/
def reachedMax (count : Nat) (max : Option Nat) : Bool :=
  match max with
  | some m => m ≤ count
  | none => false

/-- One chunk's worth of accepted records:
    `parts.filter(Boolean).map(line => filterMap(JSON.parse(line))).filter(Boolean)`.
    `filterMap` is the composed per-record function (JSON parse plus
    predicate) passed by the caller; a `none`/empty-string result is falsy
    and dropped. -/
def acceptedOfLines (filterMap : Chars → Option Chars) (lines : List Chars) : List Chars :=
  ((lines.filter fun l => !l.isEmpty).filterMap filterMap).filter fun p => !p.isEmpty

/-- The chunk loop of `pipeNjdsonToFile`: carries the partial-line buffer,
    the match counter and the records written so far; returns the written
    records and whether `abortCtrl.abort()` was triggered.  The `max` check
    runs once per chunk, after all complete lines of the chunk are
    processed; at stream end the trailing buffer is parsed and filtered once
    more. -/
def pipeNjdsonGo (filterMap : Chars → Option Chars) (max : Option Nat) :
    List Chars → Chars → Nat → List Chars → List Chars × Bool
  | [], buf, _, file =>
    if !buf.isEmpty then
      match filterMap buf with
      | some p => if !p.isEmpty then (file ++ [p], false) else (file, false)
      | none => (file, false)
    else (file, false)
  | chunk :: rest, buf, count, file =>
    let sp := splitLinesRN (buf ++ chunk)
    let outs := acceptedOfLines filterMap sp.1
    let count := count + outs.length
    let file := file ++ outs
    if reachedMax count max then (file, true)
    else pipeNjdsonGo filterMap max rest sp.2 count file

/-- `pipeNjdsonToFile` (utils.ts): stream the response body chunks, split on
    `/\r?\n/`, write each accepted record, and trigger cancellation once the
    counter reaches `max`. -/
def pipeNjdsonToFile (filterMap : Chars → Option Chars) (max : Option Nat)
    (chunks : List Chars) : List Chars × Bool :=
  pipeNjdsonGo filterMap max chunks [] 0 []

/-- An HTTP response as observed by `fetchAndDoCR`: `ok` is
    `200 <= status <= 299` (node-fetch). -/
structure Resp where
  status : Nat
  statusText : Chars
deriving DecidableEq, Repr

def Resp.ok (r : Resp) : Bool := 200 ≤ r.status && r.status ≤ 299

/-- The retry loop `for (let retried = false; !retried; retried = true)` of
    `fetchAndDoCR` (handler.ts, latest revision), over the stream of
    responses the server would return to successive requests.  Faithful to
    the source: the loop update sets `retried = true` after the first body
    iteration, which is modelled by the recursive call carrying
    `retried := true`; that call returns immediately because the loop
    condition `!retried` fails.  Returns the emitted effects and the
    response left in `res` when the loop exits (`none` when the error
    branch returned from the function). -/
def fetchLoopGo (msg : Nat) (url : Chars) :
    List Resp → Bool → Option Resp → List Effect → List Effect × Option Resp
  | _, true, res, events => (events, res)
  | [], false, _, events => (events, none)
  | r :: rest, false, _, events =>
    let events := events ++ [Effect.request]
    if !r.ok then
      if r.status = 429 then
        fetchLoopGo msg url rest true (some r)
          (events ++ [Effect.reply msg (chars ":time_ticking: Rate-limited. Waiting for 10 minutes."),
                      Effect.sleepMs (10 * 60)])
      else
        (events ++ [Effect.reply msg (chars ":cross_mark: Error while fetching games: " ++
                      r.statusText ++ chars "\nURL: " ++ url),
                    Effect.react msg (chars "cross_mark"),
                    Effect.unreact msg (chars "time_ticking")], none)
    else fetchLoopGo msg url rest true (some r) events

/-- The fetch phase of `fetchAndDoCR`: the initial `time_ticking` reaction
    followed by the retry loop.  The second component is the response whose
    body is subsequently handed to `handleResponse` (`none`: the function
    returned early on the error branch). -/
def fetchPhase (msg : Nat) (url : Chars) (responses : List Resp) :
    List Effect × Option Resp :=
  fetchLoopGo msg url responses false none [Effect.react msg (chars "time_ticking")]

/-- One side of a game record as inspected by the filter predicates:
    `players.<color>.user.id`, `players.<color>.rating`,
    `players.<color>.provisional`. -/
structure GamePlayer where
  userId : Chars
  rating : Int
  provisional : Bool
deriving DecidableEq, Repr

structure GamePlayers where
  white : GamePlayer
  black : GamePlayer
deriving DecidableEq, Repr

structure GameRec where
  players : GamePlayers
  pgn : Chars
deriving DecidableEq, Repr

/-- `advantageOk` (handler.ts, latest revision).  `!cmd.max_advantage` is a
    JS truthiness test: an absent field and the value 0 both disable the
    filter. -/
def advantageOk (o : GameRec) (user : Chars) (max_advantage : Option Nat) : Bool :=
  match max_advantage with
  | none => true
  | some m =>
    if m = 0 then true
    else
      let whiteIsPlayer := o.players.white.userId = jsToLower user
      let player := if whiteIsPlayer then o.players.white else o.players.black
      let opponent := if whiteIsPlayer then o.players.black else o.players.white
      if opponent.provisional && m < 2000 then false
      else if player.rating - opponent.rating < (m : Int) then true
      else false

/-- A concrete queued job used by concrete scheduler scenarios. -/
def sampleJob (n : Nat) : QueuedCR :=
  ⟨n, .ids ⟨chars "u", [chars "abcdefgh"]⟩, chars "pgn/x.pgn", chars "reports/x.txt"⟩

/-- C1: aborting pending index 1 while jobs [1],[2],[3] are queued (their
    rendered status positions) notifies the job at rendered position 2
    (`crQueue[1]`) instead of position 1, and `splice(0)` removes all three
    pending jobs instead of only the first; moreover, when a single job is
    queued, `abort 1` reads `crQueue[1]`, which is `undefined`, and throws.
    The current job is left in place. -/
theorem c1_abort_index_offby_one_and_splice :
    handleAbort ⟨[sampleJob 1, sampleJob 2, sampleJob 3], true, some (sampleJob 10)⟩ 99
        (.index (some 1))
      = ⟨[Effect.react 2 (chars "prohibited"), Effect.unreact 2 (chars "time_ticking")],
         ⟨[], true, some (sampleJob 10)⟩, false⟩
    ∧ (handleAbort ⟨[sampleJob 1], true, some (sampleJob 10)⟩ 99 (.index (some 1))).threw
        = true := by
  decide

/-- C3: with a 429 response followed by a 200, `fetchAndDoCR` issues exactly
    one request, reports the rate limit, sleeps, and exits the retry loop
    with the 429 response still bound, handing its body to `handleResponse`;
    with two 429s in store the behaviour is identical — no second request
    and no terminal error are ever produced, because the loop update sets
    `retried = true` after the first iteration. -/
theorem c3_rate_limit_retry_never_issued :
    fetchPhase 7 (chars "https://x/") [⟨429, chars "Too Many Requests"⟩, ⟨200, chars "OK"⟩]
      = ([Effect.react 7 (chars "time_ticking"), Effect.request,
          Effect.reply 7 (chars ":time_ticking: Rate-limited. Waiting for 10 minutes."),
          Effect.sleepMs 600],
         some ⟨429, chars "Too Many Requests"⟩)
    ∧ fetchPhase 7 (chars "https://x/") [⟨429, chars "Too Many Requests"⟩, ⟨429, chars "Too Many Requests"⟩]
      = ([Effect.react 7 (chars "time_ticking"), Effect.request,
          Effect.reply 7 (chars ":time_ticking: Rate-limited. Waiting for 10 minutes."),
          Effect.sleepMs 600],
         some ⟨429, chars "Too Many Requests"⟩) := by
  decide

/-- C4: the back-off before the (intended) retry is `sleep(10 * 60)`, i.e.
    600 milliseconds (`sleep` is a promisified `setTimeout`, which takes
    milliseconds), not the 10 minutes (600000 ms) the accompanying chat
    message announces. -/
theorem c4_backoff_is_600_milliseconds :
    Effect.sleepMs (10 * 60)
        ∈ (fetchPhase 7 (chars "https://x/") [⟨429, chars "Too Many Requests"⟩, ⟨200, chars "OK"⟩]).1
    ∧ 10 * 60 = 600
    ∧ Effect.sleepMs 600000
        ∉ (fetchPhase 7 (chars "https://x/") [⟨429, chars "Too Many Requests"⟩, ⟨200, chars "OK"⟩]).1 := by
  decide

/-- C5: a message whose content is empty after mention-stripping and
    trimming parses to `Invalid('Missing username.')`, not to `Help`:
    `''.split(/\s+/)` is `['']`, so the `parts.length === 0` branch is
    unreachable and the empty first token falls through to the `!user`
    test.  A `help` first token does parse to `Help`. -/
theorem c5_empty_input_is_invalid_not_help :
    parseCmdContent 0 (chars "") = .invalid (chars "Missing username.")
    ∧ parseCmdContent 0 (chars "@cr ") = .invalid (chars "Missing username.")
    ∧ parseCmdContent 0 (chars "@cr help") = .help
    ∧ parseCmdContent 0 (chars "help") = .help := by
  decide

/-- C7: an `abort` whose second token is non-numeric (or missing) parses to
    `Abort{indexOrAll: NaN}` rather than `Invalid`: `parseInt` never
    throws, so the `catch` branch returning `Invalid('Invalid index')` is
    dead code.  A negative index also parses to an `Abort` command. -/
theorem c7_abort_non_numeric_is_abort_nan :
    parseCmdContent 0 (chars "abort xyz") = .abort (.index none)
    ∧ parseCmdContent 0 (chars "abort") = .abort (.index none)
    ∧ parseCmdContent 0 (chars "abort -3") = .abort (.index (some (-3)))
    ∧ parseCmdContent 0 (chars "abort 2") = .abort (.index (some 2))
    ∧ parseCmdContent 0 (chars "abort all") = .abort .all := by
  decide

/-- C2 counterexample: with `maxMatches = 1` and a single chunk carrying two
    accepted complete records, both records are written (the counter is only
    checked after the whole chunk), so the file holds 2 records where
    `min(maxMatches, accepted) = 1`. -/
theorem c2_counterexample_chunk_overshoot :
    pipeNjdsonToFile some (some 1) [chars "a\nb\n"] = ([chars "a", chars "b"], true)
    ∧ (pipeNjdsonToFile some (some 1) [chars "a\nb\n"]).1.length = 2
    ∧ min 1 2 = 1 := by
  decide

/-- C6 counterexample: `recent` with count token `0` parses to a `Recent`
    command with `count = 0`, not to `Invalid` — the post-loop validation
    only rejects a missing count or a count above 100. -/
theorem c6_counterexample_count_zero_accepted :
    parseCmdContent 0 (chars "thibault recent 0 blitz")
      = .recent ⟨chars "thibault", chars "blitz", none, 0, false, none, none, none, none, none⟩ := by
  decide

/-- C8 counterexample: the parser produces `Ids{thibault, [abcdefgh]}` from
    `"thibault abcdefgh"`, but re-parsing its rendering
    `"/thibault ids abcdefgh"` yields `Invalid('Bad username')` (the leading
    `/` fails the username pattern), not an equivalent command. -/
theorem c8_counterexample_roundtrip_fails :
    parseCmdContent 0 (chars "thibault abcdefgh")
      = .ids ⟨chars "thibault", [chars "abcdefgh"]⟩
    ∧ parseCmdContent 0 (formatCmd (.ids ⟨chars "thibault", [chars "abcdefgh"]⟩))
      = .invalid (chars "Bad username") := by
  decide

/-- C10: when `max_advantage` is absent or 0 (the value `advantage<0`
    produces), `advantageOk` returns `true` unconditionally — the JS
    truthiness test `!cmd.max_advantage` disables the filter before the
    provisional-opponent guard is reached. -/
theorem c10_advantage_filter_disabled (o : GameRec) (user : Chars) (ma : Option Nat)
    (h : ma = none ∨ ma = some 0) : advantageOk o user ma = true := by
  rcases h with h | h <;> subst h <;> simp [advantageOk]

theorem c10_witness :
    advantageOk ⟨⟨⟨chars "u", 3000, false⟩, ⟨chars "v", 1000, true⟩⟩, chars "g"⟩
      (chars "u") (some 0) = true :=
  c10_advantage_filter_disabled _ _ _ (Or.inr rfl)

/-- C9: when no job is running (`currentCr` is `null`), an abort targeting
    index 0 or `all` reaches `this.currentCr.abortCtrl` and throws; for
    `all` the pending queue has already been cleared and each pending job
    notified before the fault; the top-level `handle` catches the error and
    applies the generic failure reaction (no reply).  When a job is running
    the null access cannot happen. -/
theorem c9_abort_with_no_running_job
    (st st2 : HandlerState) (msg msg2 : Nat) (c : QueuedCR)
    (h : st.currentCr = none) (h2 : st2.currentCr = some c) :
    (handleAbort st msg .all).threw = true
    ∧ (handleAbort st msg (.index (some 0))).threw = true
    ∧ (handleAbort st msg .all).state.crQueue = []
    ∧ (handleAbort st msg .all).effects
        = (st.crQueue.map fun cr =>
            [Effect.react cr.msg (chars "prohibited"),
             Effect.unreact cr.msg (chars "time_ticking")]).flatten
    ∧ (handleMsgAbort st msg .all).1
        = (st.crQueue.map fun cr =>
            [Effect.react cr.msg (chars "prohibited"),
             Effect.unreact cr.msg (chars "time_ticking")]).flatten
          ++ [Effect.react msg (chars "cross_mark"),
              Effect.unreact msg (chars "time_ticking")]
    ∧ (∀ e ∈ (handleMsgAbort st msg .all).1, ∀ m t, e ≠ Effect.reply m t)
    ∧ (handleAbort st2 msg2 .all).threw = false
    ∧ (handleAbort st2 msg2 (.index (some 0))).threw = false := by
  refine ⟨?_, ?_, ?_, ?_, ?_, ?_, ?_, ?_⟩
  · simp [handleAbort, abortCurrent, h]
  · simp [handleAbort, abortCurrent, h]
  · simp [handleAbort, abortCurrent, h]
  · simp [handleAbort, abortCurrent, h]
  · simp [handleMsgAbort, handleAbort, abortCurrent, h]
  · intro e he m t
    have h5 : (handleMsgAbort st msg .all).1
        = (st.crQueue.map fun cr =>
            [Effect.react cr.msg (chars "prohibited"),
             Effect.unreact cr.msg (chars "time_ticking")]).flatten
          ++ [Effect.react msg (chars "cross_mark"),
              Effect.unreact msg (chars "time_ticking")] := by
      simp [handleMsgAbort, handleAbort, abortCurrent, h]
    rw [h5] at he
    rcases List.mem_append.1 he with he | he
    · rcases List.mem_flatten.1 he with ⟨l, hl, hel⟩
      rcases List.mem_map.1 hl with ⟨cr, _, rfl⟩
      rcases hel with _ | ⟨_, hel⟩
      · simp
      · rcases hel with _ | ⟨_, hel⟩
        · simp
        · cases hel
    · rcases he with _ | ⟨_, he⟩
      · simp
      · rcases he with _ | ⟨_, he⟩
        · simp
        · cases he
  · simp [handleAbort, abortCurrent, h2]
    cases hr : st2.crIsRunning <;> simp [hr]
  · simp [handleAbort, abortCurrent, h2]
    cases hr : st2.crIsRunning <;> simp [hr]

theorem c9_witness :
    (handleAbort ⟨[sampleJob 1], false, none⟩ 99 .all).threw = true
    ∧ (handleAbort ⟨[], true, some (sampleJob 10)⟩ 99 (.index (some 0))).threw = false :=
  ⟨(c9_abort_with_no_running_job ⟨[sampleJob 1], false, none⟩
      ⟨[], true, some (sampleJob 10)⟩ 99 99 (sampleJob 10) rfl rfl).1,
   (c9_abort_with_no_running_job ⟨[sampleJob 1], false, none⟩
      ⟨[], true, some (sampleJob 10)⟩ 99 99 (sampleJob 10) rfl rfl).2.2.2.2.2.2.2⟩

/-- Dropping from the front never removes a non-matching last element. -/
theorem dropWhile_append_last (p : Char → Bool) (l : Chars) (a : Char) (h : p a = false) :
    (l ++ [a]).dropWhile p = l.dropWhile p ++ [a] := by
  induction l with
  | nil => simp [List.dropWhile, h]
  | cons x xs ih => by_cases hx : p x <;> simp [List.dropWhile, hx, ih]

theorem splitWsAux_ne_nil (l : Chars) : splitWsAux l ≠ [] := by
  induction l with
  | nil => simp [splitWsAux]
  | cons c rest ih =>
    by_cases h : isJsWs c
    · simp [splitWsAux, h]
    · simp only [splitWsAux, h]
      cases hs : splitWsAux rest <;> simp

theorem stripMention_slash (t : Chars) : stripMention ('/' :: t) = '/' :: stripMention t := rfl

theorem stripCrAlias_slash (t : Chars) : stripCrAlias ('/' :: t) = '/' :: t := rfl

theorem jsTrim_slash (t : Chars) :
    jsTrim ('/' :: t) = '/' :: (t.reverse.dropWhile isJsWs).reverse := by
  show ((('/' :: t).dropWhile isJsWs).reverse.dropWhile isJsWs).reverse = _
  rw [show ('/' :: t).dropWhile isJsWs = '/' :: t from rfl, List.reverse_cons,
      dropWhile_append_last _ _ _ (by decide), List.reverse_append]
  rfl

/-- A token list whose first token starts with `/` can only reach the
    username test, which fails. -/
theorem parseParts_slash_token (now : Int) (w : Chars) (rest : List Chars) :
    parseParts now (('/' :: w) :: rest) = .invalid (chars "Bad username") := by
  have hh : ('/' :: w) ≠ chars "help" := by
    rw [show chars "help" = ['h', 'e', 'l', 'p'] from rfl]; simp
  have hs : ('/' :: w) ≠ chars "status" := by
    rw [show chars "status" = ['s', 't', 'a', 't', 'u', 's'] from rfl]; simp
  have ha : ('/' :: w) ≠ chars "abort" := by
    rw [show chars "abort" = ['a', 'b', 'o', 'r', 't'] from rfl]; simp
  simp [parseParts, hh, hs, ha, isUserChar, isAlnumChar, isAsciiAlpha, isAsciiDigit]

/-- Any content starting with `/` (in particular every `formatCmd`
    rendering) parses to `Invalid('Bad username')`: the mention-strip, the
    `@cr`-strip and the trim all preserve the leading slash, which then
    fails the username pattern. -/
theorem parseCmdContent_slash (now : Int) (t : Chars) :
    parseCmdContent now ('/' :: t) = .invalid (chars "Bad username") := by
  unfold parseCmdContent
  rw [stripMention_slash, stripCrAlias_slash, jsTrim_slash]
  rcases List.exists_cons_of_ne_nil
      (splitWsAux_ne_nil (((stripMention t).reverse.dropWhile isJsWs).reverse)) with ⟨w, ws, hw⟩
  have hsplit : jsSplitTrimmedWs
      ('/' :: ((stripMention t).reverse.dropWhile isJsWs).reverse)
      = ('/' :: w) :: ws.filter (fun x => !x.isEmpty) := by
    simp [jsSplitTrimmedWs, splitWsAux, hw, show isJsWs '/' = false from rfl]
  rw [hsplit, parseParts_slash_token]

/-- C8 amended: format and parse are not inverse at all — for every
    `ValidCommand` the rendering produced by `formatCmd` begins with `/`
    followed by the username, so re-parsing it always yields
    `Invalid('Bad username')`. -/
theorem headSlash_append (s y : Chars) (h : s.head? = some '/') :
    (s ++ y).head? = some '/' := by
  cases s with
  | nil => simp at h
  | cons a t => simpa using h

theorem headSlash_chars (x : Chars) : (chars "/" ++ x).head? = some '/' := by
  rw [show chars "/" = ['/'] from rfl, List.singleton_append]; rfl

theorem appendIfNat_head (s : Chars) (f : Option Nat) (tok : Chars)
    (h : s.head? = some '/') : (appendIfNat s f tok).head? = some '/' := by
  rcases f with _ | n
  · exact h
  · simp only [appendIfNat]
    split
    · rw [List.append_assoc]; exact headSlash_append _ _ h
    · exact h

theorem appendIfInt_head (s : Chars) (f : Option Int) (tok : Chars)
    (h : s.head? = some '/') : (appendIfInt s f tok).head? = some '/' := by
  rcases f with _ | n
  · exact h
  · simp only [appendIfInt]
    split
    · rw [List.append_assoc]; exact headSlash_append _ _ h
    · exact h

theorem c8_amended_format_never_reparses (now : Int) (v : ValidCommand) :
    parseCmdContent now (formatCmd v) = .invalid (chars "Bad username") := by
  have head : (formatCmd v).head? = some '/' := by
    rcases v with c | c | c
    · simp only [formatCmd]
      exact headSlash_append _ _ (headSlash_append _ _ (headSlash_chars _))
    · simp only [formatCmd]
      apply appendIfNat_head
      apply appendIfNat_head
      apply appendIfNat_head
      apply appendIfInt_head
      apply appendIfInt_head
      split
      · exact headSlash_append _ _ (headSlash_append _ _ (headSlash_append _ _
          (headSlash_append _ _ (headSlash_append _ _ (headSlash_chars _)))))
      · exact headSlash_append _ _ (headSlash_append _ _ (headSlash_append _ _
          (headSlash_append _ _ (headSlash_chars _))))
    · simp only [formatCmd]
      apply appendIfNat_head
      apply appendIfNat_head
      apply appendIfNat_head
      exact headSlash_append _ _ (headSlash_append _ _ (headSlash_append _ _
        (headSlash_append _ _ (headSlash_chars _))))
  cases hf : formatCmd v with
  | nil => rw [hf] at head; cases head
  | cons c t =>
    rw [hf] at head
    obtain rfl : c = '/' := by simpa using head
    exact parseCmdContent_slash now t

theorem digit_not_ws (c : Char) (h : isAsciiDigit c = true) : isJsWs c = false := by
  simp [isAsciiDigit] at h
  obtain ⟨h1, h2⟩ := h
  simp only [isJsWs, Bool.or_eq_false_iff, decide_eq_false_iff_not]
  refine ⟨⟨⟨⟨⟨⟨?_, ?_⟩, ?_⟩, ?_⟩, ?_⟩, ?_⟩, ?_⟩ <;>
    (rintro rfl; first | exact absurd h1 (by decide) | exact absurd h2 (by decide))

theorem digit_tolower (c : Char) (h : isAsciiDigit c = true) : jsCharToLower c = c := by
  simp [isAsciiDigit] at h
  obtain ⟨h1, h2⟩ := h
  have hA : ¬('A' ≤ c && c ≤ 'Z') = true := by
    simp only [Bool.and_eq_true, decide_eq_true_eq]
    rintro ⟨hA1, _⟩
    have := le_trans hA1 h2
    exact absurd this (by decide)
  simp [jsCharToLower, hA]

theorem splitWsAux_space (l : Chars) : splitWsAux (' ' :: l) = [] :: splitWsAux l := by
  simp [splitWsAux, show isJsWs ' ' = true from rfl]

theorem splitWsAux_wsfree (w x : Chars) (xs : List Chars) (l : Chars)
    (hw : ∀ c ∈ w, isJsWs c = false) (hl : splitWsAux l = x :: xs) :
    splitWsAux (w ++ l) = (w ++ x) :: xs := by
  induction w with
  | nil => simpa using hl
  | cons c cs ih =>
    have hc : isJsWs c = false := hw c (List.mem_cons_self c cs)
    have ih' := ih fun d hd => hw d (List.mem_cons_of_mem c hd)
    simp [splitWsAux, hc, ih']

theorem stripMention_cons_ne_at (c : Char) (t : Chars) (h : c ≠ '@') :
    stripMention (c :: t) = c :: stripMention t := by
  rw [stripMention.eq_def]
  split
  · simp_all
  · simp_all
  · simp_all

theorem stripMention_no_at (l : Chars) (h : ∀ c ∈ l, c ≠ '@') : stripMention l = l := by
  induction l with
  | nil => rfl
  | cons c t ih =>
    rw [stripMention_cons_ne_at c t (h c (List.mem_cons_self c t)),
        ih fun d hd => h d (List.mem_cons_of_mem c hd)]

theorem stripCrAlias_cons_ne (c : Char) (t : Chars) (h : c ≠ '@') :
    stripCrAlias (c :: t) = c :: t := by
  have : (chars "@cr").isPrefixOf (c :: t) = false := by
    rw [show chars "@cr" = ['@', 'c', 'r'] from rfl]
    simp [List.isPrefixOf, Ne.symm h]
  simp [stripCrAlias, this]

theorem jsTrim_no_edge_ws (c : Char) (m : Chars) (d : Char)
    (hc : isJsWs c = false) (hd : isJsWs d = false) :
    jsTrim (c :: (m ++ [d])) = c :: (m ++ [d]) := by
  have e1 : (c :: (m ++ [d])).dropWhile isJsWs = c :: (m ++ [d]) := by
    simp [List.dropWhile_cons, hc]
  have e2 : (c :: (m ++ [d])).reverse.dropWhile isJsWs = (c :: (m ++ [d])).reverse := by
    rw [List.reverse_cons, List.reverse_append]
    simp [List.dropWhile_cons, hd]
  unfold jsTrim
  rw [e1, e2, List.reverse_reverse]

/-- C6 amended: a count token is a digit string (so never negative), and
    recent-mode parsing rejects exactly a missing count or a count above
    100 — for every digit token denoting a value above 100 the result is
    `Invalid('Max count has to be <100')`.  A count of 0 is accepted (see
    the counterexample). -/
theorem c6_amended_count_over_100 (now : Int) (tok : Chars)
    (h1 : tok ≠ []) (h2 : tok.all isAsciiDigit = true) (h3 : 100 < decNat tok) :
    parseCmdContent now (chars "thibault recent " ++ tok ++ chars " blitz")
      = .invalid (chars "Max count has to be <100") := by
  have hdigit : ∀ c ∈ tok, isAsciiDigit c = true := fun c hc => List.all_eq_true.1 h2 c hc
  have hws : ∀ c ∈ tok, isJsWs c = false := fun c hc => digit_not_ws c (hdigit c hc)
  have htokE : tok.isEmpty = false := by
    cases tok
    · exact absurd rfl h1
    · rfl
  have hne : ∀ lit : Chars, lit.all isAsciiDigit = false → tok ≠ lit := by
    intro lit hlit he
    rw [he] at h2
    rw [h2] at hlit
    cases hlit
  have hlow : jsToLower tok = tok := by
    unfold jsToLower
    have := List.map_congr_left (l := tok) (f := jsCharToLower) (g := id)
      fun c hc => digit_tolower c (hdigit c hc)
    simpa using this
  have hform : chars "thibault recent " ++ tok ++ chars " blitz"
      = chars "thibault" ++ (' ' :: (chars "recent" ++ (' ' :: (tok ++ (' ' :: chars "blitz"))))) := rfl
  rw [hform]
  unfold parseCmdContent
  -- the mention strip is the identity: no '@' occurs
  have hsm : stripMention (chars "thibault" ++ (' ' :: (chars "recent" ++
      (' ' :: (tok ++ (' ' :: chars "blitz"))))))
      = chars "thibault" ++ (' ' :: (chars "recent" ++ (' ' :: (tok ++ (' ' :: chars "blitz"))))) := by
    apply stripMention_no_at
    intro c hc
    simp only [List.mem_append, List.mem_cons] at hc
    rcases hc with hA | rfl | hc
    · exact (by decide : ∀ x ∈ chars "thibault", x ≠ '@') c hA
    · decide
    · rcases hc with hB | rfl | hc
      · exact (by decide : ∀ x ∈ chars "recent", x ≠ '@') c hB
      · decide
      · rcases hc with htok | rfl | hC
        · intro he
          have := hdigit c htok
          rw [he] at this
          exact absurd this (by decide)
        · decide
        · exact (by decide : ∀ x ∈ chars "blitz", x ≠ '@') c hC
  rw [hsm]
  have hcons : chars "thibault" ++ (' ' :: (chars "recent" ++ (' ' :: (tok ++ (' ' :: chars "blitz")))))
      = 't' :: (chars "hibault" ++ (' ' :: (chars "recent" ++ (' ' :: (tok ++ (' ' :: chars "blitz")))))) := rfl
  rw [hcons, stripCrAlias_cons_ne _ _ (by decide), ← hcons]
  -- trim is the identity: first char 't', last char 'z'
  have hsplit_z : chars "thibault" ++ (' ' :: (chars "recent" ++ (' ' :: (tok ++ (' ' :: chars "blitz")))))
      = 't' :: ((chars "hibault" ++ (' ' :: (chars "recent" ++ (' ' :: (tok ++ (' ' :: chars "blit")))))) ++ ['z']) := by
    rw [hcons, show chars "blitz" = chars "blit" ++ ['z'] from rfl]
    simp [List.append_assoc]
  rw [hsplit_z, jsTrim_no_edge_ws _ _ _ (by decide) (by decide), ← hsplit_z]
  -- tokenization
  have hw2 : splitWsAux (' ' :: chars "blitz") = [] :: [chars "blitz"] := by
    rw [splitWsAux_space, show splitWsAux (chars "blitz") = [chars "blitz"] from rfl]
  have hw3 : splitWsAux (tok ++ (' ' :: chars "blitz")) = tok :: [chars "blitz"] := by
    have := splitWsAux_wsfree tok [] [chars "blitz"] _ hws hw2
    simpa using this
  have hw4 : splitWsAux (' ' :: (tok ++ (' ' :: chars "blitz"))) = [] :: tok :: [chars "blitz"] := by
    rw [splitWsAux_space, hw3]
  have hw5 : splitWsAux (chars "recent" ++ (' ' :: (tok ++ (' ' :: chars "blitz"))))
      = chars "recent" :: tok :: [chars "blitz"] := by
    have := splitWsAux_wsfree (chars "recent") [] _ _ (by decide) hw4
    simpa using this
  have hw6 : splitWsAux (' ' :: (chars "recent" ++ (' ' :: (tok ++ (' ' :: chars "blitz")))))
      = [] :: chars "recent" :: tok :: [chars "blitz"] := by
    rw [splitWsAux_space, hw5]
  have hw7 : splitWsAux (chars "thibault" ++ (' ' :: (chars "recent" ++ (' ' :: (tok ++ (' ' :: chars "blitz"))))))
      = chars "thibault" :: chars "recent" :: tok :: [chars "blitz"] := by
    have := splitWsAux_wsfree (chars "thibault") [] _ _ (by decide) hw6
    simpa using this
  have hjs : jsSplitTrimmedWs (chars "thibault" ++ (' ' :: (chars "recent" ++ (' ' :: (tok ++ (' ' :: chars "blitz"))))))
      = [chars "thibault", chars "recent", tok, chars "blitz"] := by
    rw [jsSplitTrimmedWs, hcons]
    simp only [List.isEmpty_cons, Bool.false_eq_true, if_false, ← hcons, hw7]
    simp [htokE]
    exact ⟨by decide, by decide, h1, by decide⟩
  rw [hjs]
  -- dispatch: user is thibault, recent-mode is entered
  rw [show parseParts now [chars "thibault", chars "recent", tok, chars "blitz"]
      = parseRecent now (chars "thibault") [chars "recent", tok, chars "blitz"] from by
    simp +decide [parseParts]]
  -- the token loop
  have hmap : [chars "recent", tok, chars "blitz"].map jsToLower
      = [chars "recent", tok, chars "blitz"] := by
    simp [hlow]
    constructor <;> decide
  have hd1 : tok ≠ chars "recent" := hne _ (by decide)
  have hnc : tok ∉ perfKeywords := by
    intro hmem
    simp [perfKeywords] at hmem
    rcases hmem with rfl | rfl | rfl | rfl | rfl <;> exact absurd h2 (by decide)
  have hd2 : tok ≠ chars "+casual" := hne _ (by decide)
  have hdig : isDigitsTok tok = true := by simp [isDigitsTok, htokE, h2]
  have hloop : recentLoop now [chars "recent", tok, chars "blitz"] {}
      = .ok { perfType := some (chars "blitz"), count := some (decNat tok) } := by
    simp +decide [recentLoop, hd1, hnc, hd2, hdig]
  simp only [parseRecent, hmap, hloop]
  simp [h3]

theorem c6_witness :
    parseCmdContent 0 (chars "thibault recent " ++ chars "101" ++ chars " blitz")
      = .invalid (chars "Max count has to be <100") :=
  c6_amended_count_over_100 0 (chars "101") (by decide) (by decide) (by decide)

/-- The records a predicate accepts from a line sequence: truthy (non-empty)
    `filterMap` outputs, in order. -/
def njdsonAccepted (f : Chars → Option Chars) (lines : List Chars) : List Chars :=
  (lines.filterMap f).filter fun p => !p.isEmpty

theorem splitLinesRN_line (l : Chars) (h : ∀ c ∈ l, c ≠ '\n' ∧ c ≠ '\r') :
    splitLinesRN (l ++ ['\n']) = ([l], []) := by
  induction l with
  | nil => rfl
  | cons c cs ih =>
    obtain ⟨hc1, hc2⟩ := h c (List.mem_cons_self _ _)
    have ih' := ih fun d hd => h d (List.mem_cons_of_mem _ hd)
    rw [List.cons_append, splitLinesRN.eq_def]
    split
    · simp_all
    · simp_all
    · simp_all
    · simp_all [ih']

theorem njdsonAccepted_cons (f : Chars → Option Chars) (l : Chars) (ls : List Chars) :
    njdsonAccepted f (l :: ls)
      = (match f l with
         | some p => if !p.isEmpty then [p] else []
         | none => []) ++ njdsonAccepted f ls := by
  cases hfl : f l with
  | none => simp [njdsonAccepted, List.filterMap_cons, hfl]
  | some p =>
    cases hp : p.isEmpty <;> simp [njdsonAccepted, List.filterMap_cons, hfl, hp]

theorem pipeGo_oneline (f : Chars → Option Chars) (N : Nat) (lines : List Chars) :
    ∀ (count : Nat) (file : List Chars),
    count < N →
    (∀ l ∈ lines, l ≠ [] ∧ ∀ c ∈ l, c ≠ '\n' ∧ c ≠ '\r') →
    (pipeNjdsonGo f (some N) (lines.map fun l => l ++ ['\n']) [] count file).1.length
        = file.length + min (N - count) (njdsonAccepted f lines).length
    ∧ ((pipeNjdsonGo f (some N) (lines.map fun l => l ++ ['\n']) [] count file).2 = true
        ↔ N - count ≤ (njdsonAccepted f lines).length) := by
  induction lines with
  | nil =>
    intro count file hc _
    refine ⟨?_, ?_⟩
    · simp [pipeNjdsonGo, njdsonAccepted]
    · simp [pipeNjdsonGo, njdsonAccepted]
      omega
  | cons l ls ih =>
    intro count file hc hsh
    obtain ⟨hl_ne, hl_nl⟩ := hsh l (List.mem_cons_self _ _)
    have hsh' := fun d hd => hsh d (List.mem_cons_of_mem l hd)
    have hlE : l.isEmpty = false := by
      cases l
      · exact absurd rfl hl_ne
      · rfl
    have hsp : splitLinesRN ([] ++ (l ++ ['\n'])) = ([l], []) := by
      rw [List.nil_append]; exact splitLinesRN_line l hl_nl
    rw [njdsonAccepted_cons]
    simp only [List.map_cons, pipeNjdsonGo, hsp]
    cases hfl : f l with
    | none =>
      have houts : acceptedOfLines f [l] = [] := by
        simp [acceptedOfLines, hlE, hfl]
      have hrm : reachedMax (count + 0) (some N) = false := by
        simp [reachedMax]; omega
      have := ih count (file ++ []) hc hsh'
      simp only [houts, List.length_nil, hrm, List.append_nil] at *
      simpa using this
    | some p =>
      cases hpE : p.isEmpty with
      | true =>
        have houts : acceptedOfLines f [l] = [] := by
          simp [acceptedOfLines, hlE, hfl, hpE]
        have hrm : reachedMax (count + 0) (some N) = false := by
          simp [reachedMax]; omega
        have := ih count (file ++ []) hc hsh'
        simp only [houts, List.length_nil, hrm, List.append_nil, hpE] at *
        simpa using this
      | false =>
        have houts : acceptedOfLines f [l] = [p] := by
          simp [acceptedOfLines, hlE, hfl, hpE]
        simp only [houts, List.length_cons, List.length_nil, hpE]
        by_cases hN : N ≤ count + 1
        · have hrm : reachedMax (count + (0 + 1)) (some N) = true := by
            simp [reachedMax]; omega
          simp only [hrm, if_true]
          refine ⟨?_, ?_⟩
          · simp
            omega
          · simp
            omega
        · have hrm : reachedMax (count + (0 + 1)) (some N) = false := by
            simp [reachedMax]; omega
          simp only [hrm, Bool.false_eq_true, if_false]
          have hih := ih (count + (0 + 1)) (file ++ [p]) (by omega) hsh'
          refine ⟨?_, ?_⟩
          · rw [hih.1]
            simp
            omega
          · rw [hih.2]
            simp
            omega

theorem pipeGo_whole (f : Chars → Option Chars) (m : Option Nat) (chunks : List Chars) :
    ∀ (buf : Chars) (count : Nat) (file : List Chars),
    (∀ p ∈ file, ∃ l, f l = some p) →
    ∀ p ∈ (pipeNjdsonGo f m chunks buf count file).1, ∃ l, f l = some p := by
  induction chunks with
  | nil =>
    intro buf count file hfile p hp
    simp only [pipeNjdsonGo] at hp
    by_cases hb : buf.isEmpty
    · simp [hb] at hp
      exact hfile p hp
    · simp only [hb, Bool.not_false, if_true] at hp
      cases hfb : f buf with
      | none =>
        rw [hfb] at hp
        exact hfile p hp
      | some q =>
        rw [hfb] at hp
        by_cases hq : q.isEmpty
        · simp [hq] at hp
          exact hfile p hp
        · simp only [hq, Bool.not_false, if_true] at hp
          rcases List.mem_append.1 hp with hp | hp
          · exact hfile p hp
          · obtain rfl : p = q := by simpa using hp
            exact ⟨buf, hfb⟩
  | cons ch chs ih =>
    intro buf count file hfile p hp
    have houts : ∀ q ∈ acceptedOfLines f (splitLinesRN (buf ++ ch)).1, ∃ l, f l = some q := by
      intro q hq
      simp only [acceptedOfLines, List.mem_filter] at hq
      rcases List.mem_filterMap.1 hq.1 with ⟨a, _, ha⟩
      exact ⟨a, ha⟩
    have hfile' : ∀ q ∈ file ++ acceptedOfLines f (splitLinesRN (buf ++ ch)).1,
        ∃ l, f l = some q := by
      intro q hq
      rcases List.mem_append.1 hq with hq | hq
      · exact hfile q hq
      · exact houts q hq
    simp only [pipeNjdsonGo] at hp
    split at hp
    · exact hfile' p hp
    · exact ih _ _ _ hfile' p hp

/-- C2 amended: the `maxMatches` counter is only consulted at chunk
    boundaries, so one chunk carrying several accepted records overshoots
    `min(N, accepted)` (see the counterexample).  When every chunk delivers
    exactly one complete line, the destination holds exactly
    `min(N, accepted)` records, and cancellation fires exactly when the
    accepted records reach `N`; in general every written entry is a whole
    `filterMap` output — never a truncated partial record. -/
theorem c2_amended_early_stop :
    (∀ (f : Chars → Option Chars) (N : Nat) (lines : List Chars),
      1 ≤ N →
      (∀ l ∈ lines, l ≠ [] ∧ ∀ c ∈ l, c ≠ '\n' ∧ c ≠ '\r') →
      (pipeNjdsonToFile f (some N) (lines.map fun l => l ++ ['\n'])).1.length
          = min N (njdsonAccepted f lines).length
        ∧ ((pipeNjdsonToFile f (some N) (lines.map fun l => l ++ ['\n'])).2 = true
            ↔ N ≤ (njdsonAccepted f lines).length))
    ∧ (∀ (f : Chars → Option Chars) (m : Option Nat) (chunks : List Chars) (p : Chars),
        p ∈ (pipeNjdsonToFile f m chunks).1 → ∃ l, f l = some p) := by
  constructor
  · intro f N lines hN hsh
    have h := pipeGo_oneline f N lines 0 [] (by omega) hsh
    unfold pipeNjdsonToFile
    constructor
    · rw [h.1]; simp
    · rw [h.2]; simp
  · intro f m chunks p hp
    exact pipeGo_whole f m chunks [] 0 [] (by simp) p hp

theorem c2_witness :
    ((pipeNjdsonToFile some (some 2) ([chars "a", chars "b", chars "c"].map fun l => l ++ ['\n'])).1.length
        = min 2 (njdsonAccepted some [chars "a", chars "b", chars "c"]).length)
    ∧ (∃ l, (some l : Option Chars) = some (chars "a")) :=
  ⟨(c2_amended_early_stop.1 some 2 [chars "a", chars "b", chars "c"] (by decide) (by decide)).1,
   c2_amended_early_stop.2 some none [chars "a\n"] (chars "a") (by decide)⟩
